import Mathlib

/-!
Verification of the SLM-DB core: `PersistentSkiplist` (src/db/persistent_skiplist.h)
and `Index` (the unnamed translation unit implementing `Index::Get`, `Index::Insert`,
`Index::Update`, `Index::AsyncInsert`, `Index::Runner`, `Index::AddQueue`).

Modelling conventions.
* Byte strings (`Slice`, `std::string`) are `List Nat` of byte values.
* The comparator is a parameter `cmp : Bytes → Bytes → Ordering`, mirroring the
  external `Comparator::Compare` (negative / zero / positive result).  Concrete
  runs instantiate it with `cmpBytes`, the lexicographic bytewise comparator
  (leveldb's default `BytewiseComparator`).
* A skiplist `Node` stores `key`, `value`, `level`, and the pointer vectors
  `next`/`prev`; a pointer is `Option Nat` (`none` = `NULL`, `some id` = the node
  with identity `id`).  The heap maps node identities to nodes; `Erase` only
  unlinks nodes, it never frees them, so unlinked nodes stay in the heap and
  remain readable exactly as in the source (reclamation happens only at
  destruction).
* C++ undefined behaviour — dereferencing `NULL`, reading or writing a
  `std::vector` out of range — and non-termination of a pointer walk are both
  modelled as a fault: the operation returns `none`.  Every bounded loop carries
  fuel strictly larger than any walk a terminating execution can make.
* `current_level` has C++ type `size_t`; the only place its unsignedness
  matters is the decrement loop at the end of `Erase`, where `wrapDec` models
  the wrap-around of `0 - 1` to `2^64 - 1`.
* `RandomLevel` draws from a PRNG; the drawn level is passed to `Insert` as an
  explicit argument (the source guarantees it lies in `[1, 32]`).
-/

namespace SLMDB

/-- Byte strings: contents of a `Slice` / `std::string`. -/
abbrev Bytes := List Nat

/-- Lexicographic bytewise comparison — the behaviour of leveldb's default
`BytewiseComparator` (`memcmp`, then length as tie break), used to instantiate
the external comparator on concrete runs. -/
def cmpBytes : Bytes → Bytes → Ordering
  | [], [] => Ordering.eq
  | [], _ :: _ => Ordering.lt
  | _ :: _, [] => Ordering.gt
  | a :: as, b :: bs =>
    if a < b then Ordering.lt
    else if b < a then Ordering.gt
    else cmpBytes as bs

/-- `static const size_t max_level = 32`. -/
def maxLevel : Nat := 32

/-- Identity of the `head` sentinel in every skiplist heap. -/
def headId : Nat := 0

/-- Identity of the `tail` sentinel in every skiplist heap. -/
def tailId : Nat := 1

/-- `PersistentSkiplist::Node`: key and value bytes, the immutable `level`, and
the `next`/`prev` pointer vectors (entries are `none` for `NULL`). -/
structure Node where
  key : Bytes
  value : Bytes
  level : Nat
  next : List (Option Nat)
  prev : List (Option Nat)
deriving Repr, DecidableEq

/-- The `Node` constructor: copies key and value and pushes `level` many `NULL`
entries onto `next` and `prev`. -/
def Node.make (k v : Bytes) (level : Nat) : Node :=
  { key := k, value := v, level := level,
    next := List.replicate level none, prev := List.replicate level none }

/-- `size_t GetSize()` of a node: `key.size() + value.size()`. -/
def Node.getSize (n : Node) : Nat := n.key.length + n.value.length

/-- The mutable state of a `PersistentSkiplist`: the node heap, the allocation
counter for fresh node identities, and the `current_level` / `current_size`
members. -/
structure SkipState where
  heap : Nat → Option Node
  nextId : Nat
  current_level : Nat
  current_size : Nat

/-- `size_t ApproximateMemoryUsage()` returns `current_size`. -/
def SkipState.ApproximateMemoryUsage (s : SkipState) : Nat := s.current_size

/-- Fuel bound for the pointer walks of one operation: strictly more steps than
any terminating C++ walk over a heap with `nextId` allocated nodes can take. -/
def fuelOf (s : SkipState) : Nat := s.nextId + 64

/-- Write one slot of a pointer vector; writing out of range is C++ UB and
faults. -/
def setPtr (l : List (Option Nat)) (i : Nat) (v : Option Nat) :
    Option (List (Option Nat)) :=
  if i < l.length then some (l.set i v) else none

/-- Replace the node stored at identity `id`. -/
def SkipState.setHeap (s : SkipState) (id : Nat) (n : Node) : SkipState :=
  { s with heap := fun j => if j = id then some n else s.heap j }

/-- `node->next[i] = v` for the node at `id`; faults on a dangling `id` or an
out-of-range index. -/
def SkipState.updNext (s : SkipState) (id i : Nat) (v : Option Nat) :
    Option SkipState := do
  let n ← s.heap id
  let l ← setPtr n.next i v
  some (s.setHeap id { n with next := l })

/-- `node->prev[i] = v` for the node at `id`. -/
def SkipState.updPrev (s : SkipState) (id i : Nat) (v : Option Nat) :
    Option SkipState := do
  let n ← s.heap id
  let l ← setPtr n.prev i v
  some (s.setHeap id { n with prev := l })

namespace PersistentSkiplist

/-- The level-`i` advance loop of `FindGreaterOrEqual`:
`while (node->next[i] != tail && Compare(node->next[i]->key, key) < 0) node = node->next[i];`.
Returns the identities whose keys were handed to the comparator (in call order)
together with the final `node` (or `none` on fault). -/
def fgeLevel (cmp : Bytes → Bytes → Ordering) (s : SkipState) (key : Bytes)
    (i : Nat) : Nat → Nat → List Nat × Option Nat
  | 0, _ => ([], none)
  | fuel + 1, nodeId =>
    match s.heap nodeId with
    | none => ([], none)
    | some n =>
      match n.next.get? i with
      | none => ([], none)
      | some none => ([], none)
      | some (some nxt) =>
        if nxt = tailId then ([], some nodeId)
        else
          match s.heap nxt with
          | none => ([], none)
          | some nn =>
            if cmp nn.key key = Ordering.lt then
              let r := fgeLevel cmp s key i fuel nxt
              (nxt :: r.1, r.2)
            else ([nxt], some nodeId)

/-- The descent `for (auto i = current_level; i-- > 0;)` of
`FindGreaterOrEqual`: run the advance loop at levels `i-1, …, 0`. -/
def fgeDescend (cmp : Bytes → Bytes → Ordering) (s : SkipState) (key : Bytes) :
    Nat → Nat → List Nat × Option Nat
  | 0, nodeId => ([], some nodeId)
  | i + 1, nodeId =>
    let r1 := fgeLevel cmp s key i (fuelOf s) nodeId
    match r1.2 with
    | none => (r1.1, none)
    | some nd =>
      let r2 := fgeDescend cmp s key i nd
      (r1.1 ++ r2.1, r2.2)

/-- `PersistentSkiplist::FindGreaterOrEqual`: descend from `head` starting at
`current_level`, then return `node->next[0]`.  The first component records the
comparator's node operands; a `NULL` result is merged with the fault case
because every caller dereferences the returned pointer at once. -/
def FindGreaterOrEqual (cmp : Bytes → Bytes → Ordering) (s : SkipState)
    (key : Bytes) : List Nat × Option Nat :=
  let r := fgeDescend cmp s key s.current_level headId
  match r.2 with
  | none => (r.1, none)
  | some nd =>
    match s.heap nd with
    | none => (r.1, none)
    | some n =>
      match n.next.get? 0 with
      | some (some x) => (r.1, some x)
      | _ => (r.1, none)

/-- The forward walk of `Insert`:
`while (next_node->level <= i) next_node = next_node->next[i-1];` (index `i-1`
is C++ UB when `i = 0`, hence the fault). -/
def walkFwd (s : SkipState) (i : Nat) : Nat → Nat → Option Nat
  | 0, _ => none
  | fuel + 1, id =>
    match s.heap id with
    | none => none
    | some n =>
      if n.level ≤ i then
        match i with
        | 0 => none
        | j + 1 =>
          match n.next.get? j with
          | some (some nx) => walkFwd s (j + 1) fuel nx
          | _ => none
      else some id

/-- The backward walk of `Insert`:
`while (prev_node->level <= i) prev_node = prev_node->prev[i-1];`. -/
def walkBwd (s : SkipState) (i : Nat) : Nat → Nat → Option Nat
  | 0, _ => none
  | fuel + 1, id =>
    match s.heap id with
    | none => none
    | some n =>
      if n.level ≤ i then
        match i with
        | 0 => none
        | j + 1 =>
          match n.prev.get? j with
          | some (some px) => walkBwd s (j + 1) fuel px
          | _ => none
      else some id

/-- The linking loop of `Insert` (`for (auto i = 0; i < level; i++)`): walk
`next_node` and `prev_node` to nodes tall enough for level `i`, then perform
the four pointer writes in source order.  The first argument counts the
remaining iterations, the second is the current `i`. -/
def linkLoop (newId : Nat) :
    Nat → Nat → SkipState → Option Nat → Option Nat → Option SkipState
  | 0, _, s, _, _ => some s
  | rem + 1, i, s, nextOpt, prevOpt => do
    let nid ← nextOpt
    let pid ← prevOpt
    let nn ← walkFwd s i (fuelOf s) nid
    let pp ← walkBwd s i (fuelOf s) pid
    let s1 ← s.updNext newId i (some nn)
    let s2 ← s1.updPrev nn i (some newId)
    let s3 ← s2.updPrev newId i (some pp)
    let s4 ← s3.updNext pp i (some newId)
    linkLoop newId rem (i + 1) s4 (some nn) (some pp)

/-- `PersistentSkiplist::Insert(key, value)` with the drawn random level passed
explicitly.  Steps, in source order: `FindGreaterOrEqual`; read
`node->prev[0]`; if `Equal(node->key, key)` advance `next_node = node->next[0]`;
allocate the new node; raise `current_level` if `level` exceeds it; run the
linking loop; finally `current_size += new_node->GetSize()`. -/
def Insert (cmp : Bytes → Bytes → Ordering) (s : SkipState) (k v : Bytes)
    (lvl : Nat) : Option SkipState := do
  let nodeId ← (FindGreaterOrEqual cmp s k).2
  let node ← s.heap nodeId
  let prev0 ← node.prev.get? 0
  let next0 ←
    (if cmp node.key k = Ordering.eq then node.next.get? 0
     else some (some nodeId))
  let newId := s.nextId
  let s1 := { s.setHeap newId (Node.make k v lvl) with nextId := newId + 1 }
  let s2 :=
    { s1 with current_level :=
        if lvl > s1.current_level then lvl else s1.current_level }
  let s3 ← linkLoop newId lvl 0 s2 next0 prev0
  some { s3 with current_size := s3.current_size + (k.length + v.length) }

/-- The comparator events of one `Insert` call: those of `FindGreaterOrEqual`
followed by the `Equal(node->key, key)` test on its result. -/
def insertEvents (cmp : Bytes → Bytes → Ordering) (s : SkipState) (k : Bytes) :
    List Nat :=
  let r := FindGreaterOrEqual cmp s k
  match r.2 with
  | none => r.1
  | some id =>
    match s.heap id with
    | none => r.1
    | some _ => r.1 ++ [id]

/-- `PersistentSkiplist::Find(key)`: `FindGreaterOrEqual`, then return the node
iff `Equal(key, node->key)`, else `NULL`.  Outer `none` is a fault, `some none`
is a `NULL` return, `some (some id)` is a node pointer. -/
def Find (cmp : Bytes → Bytes → Ordering) (s : SkipState) (key : Bytes) :
    Option (Option Nat) :=
  match (FindGreaterOrEqual cmp s key).2 with
  | none => none
  | some id =>
    match s.heap id with
    | none => none
    | some n => if cmp key n.key = Ordering.eq then some (some id) else some none

/-- The comparator events of one `Find` call. -/
def findEvents (cmp : Bytes → Bytes → Ordering) (s : SkipState) (key : Bytes) :
    List Nat :=
  let r := FindGreaterOrEqual cmp s key
  match r.2 with
  | none => r.1
  | some id =>
    match s.heap id with
    | none => r.1
    | some _ => r.1 ++ [id]

/-- The `left` walk of `Erase`:
`while (left->level <= level+1) left = left->prev[level];`. -/
def eraseWalkL (s : SkipState) (level : Nat) : Nat → Nat → Option Nat
  | 0, _ => none
  | fuel + 1, id =>
    match s.heap id with
    | none => none
    | some n =>
      if n.level ≤ level + 1 then
        match n.prev.get? level with
        | some (some p) => eraseWalkL s level fuel p
        | _ => none
      else some id

/-- The `right` walk of `Erase`:
`while (right->level <= level+1) right = right->next[level];`. -/
def eraseWalkR (s : SkipState) (level : Nat) : Nat → Nat → Option Nat
  | 0, _ => none
  | fuel + 1, id =>
    match s.heap id with
    | none => none
    | some n =>
      if n.level ≤ level + 1 then
        match n.next.get? level with
        | some (some p) => eraseWalkR s level fuel p
        | _ => none
      else some id

/-- The unlink loop of `Erase` (`for (int level = 0; level < current_level;
level++)`): write `left->next[level] = right` and `right->prev[level] = left`,
then walk `left` and `right` outward for the next level. -/
def eraseLoop :
    Nat → Nat → SkipState → Option Nat → Option Nat → Option SkipState
  | 0, _, s, _, _ => some s
  | rem + 1, level, s, leftOpt, rightOpt => do
    let l ← leftOpt
    let r ← rightOpt
    let s1 ← s.updNext l level (some r)
    let s2 ← s1.updPrev r level (some l)
    let l2 ← eraseWalkL s2 level (fuelOf s2) l
    let r2 ← eraseWalkR s2 level (fuelOf s2) r
    eraseLoop rem (level + 1) s2 (some l2) (some r2)

/-- `SIZE_MAX`: the value `(size_t)0 - 1` wraps to. -/
def sizeTMax : Nat := 2 ^ 64 - 1

/-- The `size_t` decrement `current_level--`, wrapping at zero. -/
def wrapDec (n : Nat) : Nat := if n = 0 then sizeTMax else n - 1

/-- The shrink loop at the end of `Erase`:
`while (head->next[current_level] == tail && tail->prev[current_level] == head)
current_level--;`.  Reading `next`/`prev` out of range (as happens after the
decrement wraps past zero) is UB and faults. -/
def shrinkLoop (s : SkipState) : Nat → Nat → Option Nat
  | 0, _ => none
  | fuel + 1, cl =>
    match s.heap headId, s.heap tailId with
    | some hn, some tn =>
      match hn.next.get? cl with
      | none => none
      | some v =>
        if v = some tailId then
          match tn.prev.get? cl with
          | none => none
          | some w =>
            if w = some headId then shrinkLoop s fuel (wrapDec cl) else some cl
        else some cl
    | _, _ => none

/-- `PersistentSkiplist::Erase(first, last)`: read `left = first->prev[0]` and
`right = last->next[0]`, run the unlink loop over levels `0 … current_level-1`,
then the shrink loop. -/
def Erase (s : SkipState) (first last : Nat) : Option SkipState := do
  let fn ← s.heap first
  let ln ← s.heap last
  let l0 ← fn.prev.get? 0
  let r0 ← ln.next.get? 0
  let s1 ← eraseLoop s.current_level 0 s l0 r0
  let cl2 ← shrinkLoop s1 (fuelOf s1) s1.current_level
  some { s1 with current_level := cl2 }

/-- The `head` sentinel as left by the default constructor: empty key, level
`max_level`, every `next[i] = tail`, every `prev[i] = NULL`. -/
def headNode : Node :=
  { key := [], value := [], level := maxLevel,
    next := List.replicate maxLevel (some tailId),
    prev := List.replicate maxLevel none }

/-- The `tail` sentinel as left by the default constructor. -/
def tailNode : Node :=
  { key := [], value := [], level := maxLevel,
    next := List.replicate maxLevel none,
    prev := List.replicate maxLevel (some headId) }

/-- `PersistentSkiplist(cmp)`: fresh sentinels mutually linked on all 32
levels, `current_level = 0`, `current_size = 0`. -/
def emptySkiplist : SkipState :=
  { heap := fun j =>
      if j = headId then some headNode
      else if j = tailId then some tailNode
      else none,
    nextId := 2, current_level := 0, current_size := 0 }

/-- One skiplist operation of a test program: an `Insert` with its drawn random
level, or an `Erase` of the inclusive node range `[first, last]`. -/
inductive SkipOp where
  | ins (k v : Bytes) (lvl : Nat)
  | del (first last : Nat)
deriving Repr, DecidableEq

/-- Execute one operation. -/
def runOp (cmp : Bytes → Bytes → Ordering) (s : SkipState) :
    SkipOp → Option SkipState
  | SkipOp.ins k v lvl => Insert cmp s k v lvl
  | SkipOp.del f l => Erase s f l

/-- Execute a list of operations from a given state; a fault aborts the run. -/
def runOpsFrom (cmp : Bytes → Bytes → Ordering) :
    SkipState → List SkipOp → Option SkipState
  | s, [] => some s
  | s, op :: rest => do
    let s2 ← runOp cmp s op
    runOpsFrom cmp s2 rest

/-- Execute a list of operations starting from a freshly constructed empty
skiplist. -/
def runOps (cmp : Bytes → Bytes → Ordering) (ops : List SkipOp) :
    Option SkipState :=
  runOpsFrom cmp emptySkiplist ops

/-- Collect the node identities from `id` along `next[0]` until `tail`
(exclusive); faults on a broken chain or exhausted fuel. -/
def chainFrom (s : SkipState) : Nat → Nat → Option (List Nat)
  | 0, _ => none
  | fuel + 1, id =>
    if id = tailId then some []
    else
      match s.heap id with
      | none => none
      | some n =>
        match n.next.get? 0 with
        | some (some nx) =>
          match chainFrom s fuel nx with
          | some rest => some (id :: rest)
          | none => none
        | _ => none

/-- The identities of the live non-sentinel nodes: the walk along `next[0]`
from `head` to `tail`. -/
def walkIds (s : SkipState) : Option (List Nat) :=
  match s.heap headId with
  | none => none
  | some hn =>
    match hn.next.get? 0 with
    | some (some nx) => chainFrom s (fuelOf s) nx
    | _ => none

/-- The keys along the `next[0]` walk from `head`. -/
def walkKeys (s : SkipState) : Option (List Bytes) :=
  match walkIds s with
  | none => none
  | some ids => ids.mapM fun i => (s.heap i).map Node.key

/-- Σ (key length + value length) over the live non-sentinel nodes. -/
def liveBytes (s : SkipState) : Option Nat :=
  match walkIds s with
  | none => none
  | some ids =>
    (ids.mapM s.heap).map (List.foldl (fun a n => a + n.getSize) 0)

/-- The maximum `level` over the live non-sentinel nodes (0 when empty). -/
def maxLiveLevel (s : SkipState) : Option Nat :=
  match walkIds s with
  | none => none
  | some ids =>
    (ids.mapM s.heap).map (List.foldl (fun a n => max a n.level) 0)

/-- Is the key sequence non-decreasing under the bytewise comparator? -/
def keysSorted : List Bytes → Bool
  | [] => true
  | [_] => true
  | a :: b :: rest =>
    (cmpBytes a b ≠ Ordering.gt) && keysSorted (b :: rest)

/-- Observation of a possibly-faulted run: the `next[0]` walk. -/
def obsWalkIds (r : Option SkipState) : Option (List Nat) :=
  r.bind walkIds

/-- Observation of a possibly-faulted run: the keys along the walk. -/
def obsWalkKeys (r : Option SkipState) : Option (List Bytes) :=
  r.bind walkKeys

/-- Observation: `ApproximateMemoryUsage`, i.e. `current_size`. -/
def obsSize (r : Option SkipState) : Option Nat :=
  r.map SkipState.current_size

/-- Observation: `current_level`. -/
def obsLevel (r : Option SkipState) : Option Nat :=
  r.map SkipState.current_level

/-- Observation: Σ (key+value length) over live nodes. -/
def obsLiveBytes (r : Option SkipState) : Option Nat :=
  r.bind liveBytes

/-- Observation: maximum level over live nodes. -/
def obsMaxLiveLevel (r : Option SkipState) : Option Nat :=
  r.bind maxLiveLevel

/-- Observation: the result of `Find` on the final state. -/
def obsFind (cmp : Bytes → Bytes → Ordering) (r : Option SkipState)
    (key : Bytes) : Option (Option Nat) :=
  r.bind fun s => Find cmp s key

/-- Precondition of `Erase(first, last)` per its contract (erase the inclusive
range `[first, last]`): both arguments are live non-sentinel nodes and `first`
does not come after `last` on the level-0 chain. -/
def eraseArgsOk (s : SkipState) (f l : Nat) : Bool :=
  match walkIds s with
  | none => false
  | some ids =>
    match ids.findIdx? (· = f), ids.findIdx? (· = l) with
    | some i, some j => decide (i ≤ j)
    | _, _ => false

/-- Does every operation of the program respect its precondition in the state
it executes in?  `Insert` levels must lie in `[1, max_level]` (the range of
`RandomLevel`); `Erase` arguments must satisfy `eraseArgsOk`.  A faulting
operation is admitted only as the final operation of the program. -/
def opsValidFrom (cmp : Bytes → Bytes → Ordering) :
    SkipState → List SkipOp → Bool
  | _, [] => true
  | s, op :: rest =>
    let pre : Bool :=
      match op with
      | SkipOp.ins _ _ lvl => decide (1 ≤ lvl ∧ lvl ≤ maxLevel)
      | SkipOp.del f l => eraseArgsOk s f l
    if pre then
      match runOp cmp s op with
      | none => rest.isEmpty
      | some s2 => opsValidFrom cmp s2 rest
    else false

/-- `opsValidFrom` starting from the empty skiplist. -/
def opsValid (cmp : Bytes → Bytes → Ordering) (ops : List SkipOp) : Bool :=
  opsValidFrom cmp emptySkiplist ops

/-- One iteration step of the adoption constructor loop
(`while (cmp->Compare(left->key, last->key) < 0 && cmp->Compare(first->key, right->key) < 0)`):
link `head → left` and `right → tail` at `current_level`, increment it, then
walk `left` forward and `right` backward to nodes tall enough for the new
level (the walks reuse the shape of `Insert`'s walks at index
`current_level - 1`). -/
def adoptLoop (cmp : Bytes → Bytes → Ordering) (firstId lastId : Nat) :
    Nat → SkipState → Nat → Nat → Option SkipState
  | 0, _, _, _ => none
  | fuel + 1, s, l, r => do
    let ln ← s.heap l
    let rn ← s.heap r
    let fn ← s.heap firstId
    let lastn ← s.heap lastId
    if cmp ln.key lastn.key = Ordering.lt then
      if cmp fn.key rn.key = Ordering.lt then do
        let s1 ← s.updNext headId s.current_level (some l)
        let s2 ← s1.updPrev l s.current_level (some headId)
        let s3 ← s2.updPrev tailId s.current_level (some r)
        let s4 ← s3.updNext r s.current_level (some tailId)
        let s5 := { s4 with current_level := s4.current_level + 1 }
        let l2 ← walkFwd s5 s5.current_level (fuelOf s5) l
        let r2 ← walkBwd s5 s5.current_level (fuelOf s5) r
        adoptLoop cmp firstId lastId fuel s5 l2 r2
      else some s
    else some s

/-- The adoption constructor
`PersistentSkiplist(cmp, first, last)`: delegate to the default constructor
(fresh sentinels over the caller's heap `h` of already-allocated nodes), set
`current_level = 0`, then run the adoption loop with `left = first`,
`right = last`. -/
def adoptCtor (cmp : Bytes → Bytes → Ordering) (h : Nat → Option Node)
    (nid : Nat) (firstId lastId : Nat) : Option SkipState :=
  let s0 : SkipState :=
    { heap := fun j =>
        if j = headId then some headNode
        else if j = tailId then some tailNode
        else h j,
      nextId := nid, current_level := 0, current_size := 0 }
  adoptLoop cmp firstId lastId (fuelOf s0 + 2 * maxLevel) s0 firstId lastId

/-- Adoption over a single-node chain (`first == last`): the caller's heap
holds one node at identity 2. -/
def adoptSingle (cmp : Bytes → Bytes → Ordering) (n : Node) :
    Option SkipState :=
  adoptCtor cmp (fun j => if j = 2 then some n else none) 3 2 2

/-- The first `n` entries of `l` overwritten with `v`. -/
def setUpTo (v : Option Nat) : Nat → List (Option Nat) → List (Option Nat)
  | 0, l => l
  | n + 1, l => (setUpTo v n l).set n v

/-- A fresh node of level `L` whose `next` entries below `a` point at `tail`
and whose `prev` entries below `b` point at `head` — the shape the linking
loop of an `Insert` between the sentinels produces. -/
def newNodeAt (k v : Bytes) (L a b : Nat) : Node :=
  { Node.make k v L with
      next := setUpTo (some tailId) a (List.replicate L none),
      prev := setUpTo (some headId) b (List.replicate L none) }

/-- `hnode` with its `next` entries below `i` redirected to `newId`. -/
def headAt (hnode : Node) (newId i : Nat) : Node :=
  { hnode with next := setUpTo (some newId) i hnode.next }

/-- `tnode` with its `prev` entries below `i` redirected to `newId`. -/
def tailAt (tnode : Node) (newId i : Nat) : Node :=
  { tnode with prev := setUpTo (some newId) i tnode.prev }

/-- The skiplist state after the linking loop of an `Insert` placed between
the two sentinels has processed levels `0 … i-1`. -/
def linkState (s : SkipState) (newId : Nat) (k v : Bytes) (L : Nat)
    (hnode tnode : Node) (i : Nat) : SkipState :=
  { s with heap := fun j =>
      if j = headId then some (headAt hnode newId i)
      else if j = tailId then some (tailAt tnode newId i)
      else if j = newId then some (newNodeAt k v L i i)
      else s.heap j }

/-- The skiplist state after inserting one pair into a fresh skiplist at
level `L`. -/
def dupState1 (k v : Bytes) (L : Nat) : SkipState :=
  { heap := fun j =>
      if j = headId then some (headAt headNode 2 L)
      else if j = tailId then some (tailAt tailNode 2 L)
      else if j = 2 then some (newNodeAt k v L L L)
      else none,
    nextId := 3, current_level := L,
    current_size := k.length + v.length }

/-- The skiplist state after inserting the same key twice (values `v1`, `v2`,
levels `L1`, `L2`) into a fresh skiplist: the second node took the first
node's place between the sentinels, while the first node keeps its own (now
bypassed) pointers. -/
def dupState2 (k v1 v2 : Bytes) (L1 L2 : Nat) : SkipState :=
  { heap := fun j =>
      if j = headId then some (headAt (headAt headNode 2 L1) 3 L2)
      else if j = tailId then some (tailAt (tailAt tailNode 2 L1) 3 L2)
      else if j = 3 then some (newNodeAt k v2 L2 L2 L2)
      else if j = 2 then some (newNodeAt k v1 L1 L1 L1)
      else none,
    nextId := 4,
    current_level := if L2 > L1 then L2 else L1,
    current_size := k.length + v1.length + (k.length + v2.length) }

/-- Σ (key length + value length) over the `Insert` operations of a program:
the bytes the source ever adds to `current_size`. -/
def insertedBytes : List SkipOp → Nat
  | [] => 0
  | SkipOp.ins k v _ :: rest => k.length + v.length + insertedBytes rest
  | SkipOp.del _ _ :: rest => insertedBytes rest

end PersistentSkiplist

namespace Index

/-- A pointer to an `IndexMeta` block.  `IndexMeta` is opaque to the core, so a
pointer identity is all the model needs. -/
abbrev MetaPtr := Nat

/-- The address ranges the Index write path flushes: the `IndexMeta` block
behind a metadata pointer, or the 4-byte key word. -/
inductive Addr where
  | metaBlock (m : MetaPtr)
  | keyWord (k : Nat)
deriving Repr, DecidableEq

/-- Observable effects of the Index write path: `clflush` calls and backing
tree calls. -/
inductive Effect where
  | flush (a : Addr) (len : Nat)
  | treeInsert (k : Nat) (m : MetaPtr)
  | treeUpdate (k : Nat) (fnumber : Nat) (m : MetaPtr)
deriving Repr, DecidableEq

/-- `Index::Insert(key, meta)`: `clflush((char*)m, sizeof(IndexMeta))`, then
`clflush((char*)&key, sizeof(uint32_t))` (4 bytes), then `tree_.insert(key, m)`.
`szMeta` stands for the compile-time constant `sizeof(IndexMeta)`. -/
def InsertTrace (szMeta : Nat) (k : Nat) (m : MetaPtr) : List Effect :=
  [Effect.flush (Addr.metaBlock m) szMeta,
   Effect.flush (Addr.keyWord k) 4,
   Effect.treeInsert k m]

/-- `Index::Update(key, fnumber, meta)`: a single `tree_.update` call, no
flush. -/
def UpdateTrace (k fnumber : Nat) (m : MetaPtr) : List Effect :=
  [Effect.treeUpdate k fnumber m]

/-- A queued operation (`KeyAndMeta`): key, `prev_file_number`, metadata
pointer. -/
structure KeyAndMeta where
  key : Nat
  prev_file_number : Nat
  meta : MetaPtr
deriving Repr, DecidableEq

/-- `Index::AsyncInsert`: `queue_.push_back(key_and_meta)`. -/
def AsyncInsert (queue : List KeyAndMeta) (e : KeyAndMeta) : List KeyAndMeta :=
  queue ++ [e]

/-- The effects of processing one queue entry in the drain loop of
`Index::Runner`: `Insert(key, value)` when `prev_file_number == 0`, otherwise
`Update(key, fnumber, value)`. -/
def entryEffects (szMeta : Nat) (e : KeyAndMeta) : List Effect :=
  if e.prev_file_number = 0 then InsertTrace szMeta e.key e.meta
  else UpdateTrace e.key e.prev_file_number e.meta

/-- The backing tree call a queue entry is applied as. -/
def entryCall (e : KeyAndMeta) : Effect :=
  if e.prev_file_number = 0 then Effect.treeInsert e.key e.meta
  else Effect.treeUpdate e.key e.prev_file_number e.meta

/-- One drain pass of `Index::Runner` (`for (;!queue_.empty();)`): pop the
front entry, apply it, repeat.  Returns the emitted effect sequence and the
queue left when the pass completes. -/
def Runner (szMeta : Nat) : List KeyAndMeta → List Effect × List KeyAndMeta
  | [] => ([], [])
  | e :: rest =>
    let r := Runner szMeta rest
    (entryEffects szMeta e ++ r.1, r.2)

/-- Is an effect a backing tree call (as opposed to a flush)? -/
def isTreeCall : Effect → Bool
  | Effect.treeInsert _ _ => true
  | Effect.treeUpdate _ _ _ => true
  | Effect.flush _ _ => false

/-- The subsequence of backing tree calls of an effect sequence. -/
def treeCalls (l : List Effect) : List Effect := l.filter isTreeCall

/-- `Index::AddQueue(queue)`: `assert(queue_.size() == 0)` then
`queue_.swap(queue)`.  Returns `(internal queue, caller queue)` after the
swap; the failed assertion is a fatal fault. -/
def AddQueue (internal batch : List KeyAndMeta) :
    Option (List KeyAndMeta × List KeyAndMeta) :=
  if internal.length = 0 then some (batch, internal) else none

/-- Modelled from the spec: the body of `fast_atoi` lives in the repository's
`util/fast_atoi.h`, which is not under `src/` (the Index translation unit only
includes and calls it).  Per the spec, parse the leading ASCII decimal digits
of the byte string as an unsigned 32-bit integer, stopping at the first
non-digit; absence of leading digits yields 0. -/
def fast_atoi (bs : Bytes) : Nat := go 0 bs
where
  go : Nat → Bytes → Nat
    | acc, [] => acc
    | acc, c :: cs =>
      if 48 ≤ c ∧ c ≤ 57 then go ((acc * 10 + (c - 48)) % 2 ^ 32) cs else acc

/-- `Index::Get(key)`: `tree_.search(fast_atoi(key.data()))`, the backing tree
modelled as the map it implements from integer keys to stored metadata
pointers. -/
def Get (tree : Nat → Option MetaPtr) (key : Bytes) : Option MetaPtr :=
  tree (fast_atoi key)

end Index

/-! ### Helper lemmas -/

lemma cmpBytes_self (a : Bytes) : cmpBytes a a = Ordering.eq := by
  induction a with
  | nil => rfl
  | cons c cs ih => simp [cmpBytes, ih]

namespace PersistentSkiplist

lemma updNext_size {s s' : SkipState} {id i : Nat} {v : Option Nat}
    (h : s.updNext id i v = some s') : s'.current_size = s.current_size := by
  simp only [SkipState.updNext, Option.bind_eq_bind', Option.bind_eq_some',
    Option.some.injEq] at h
  obtain ⟨n, hn, l, hl, rfl⟩ := h
  rfl

lemma updPrev_size {s s' : SkipState} {id i : Nat} {v : Option Nat}
    (h : s.updPrev id i v = some s') : s'.current_size = s.current_size := by
  simp only [SkipState.updPrev, Option.bind_eq_bind', Option.bind_eq_some',
    Option.some.injEq] at h
  obtain ⟨n, hn, l, hl, rfl⟩ := h
  rfl

lemma linkLoop_size (newId : Nat) :
    ∀ rem i s nx pv s', linkLoop newId rem i s nx pv = some s' →
      s'.current_size = s.current_size := by
  intro rem
  induction rem with
  | zero =>
    intro i s nx pv s' h
    unfold linkLoop at h
    cases h
    rfl
  | succ r ih =>
    intro i s nx pv s' h
    simp only [linkLoop, Option.bind_eq_bind', Option.bind_eq_some'] at h
    obtain ⟨nid, hnid, pid, hpid, nn, hnn, pp, hpp,
      s1, h1, s2, h2, s3, h3, s4, h4, h5⟩ := h
    calc s'.current_size
        = s4.current_size := ih (i + 1) s4 (some nn) (some pp) s' h5
      _ = s3.current_size := updNext_size h4
      _ = s2.current_size := updPrev_size h3
      _ = s1.current_size := updPrev_size h2
      _ = s.current_size := updNext_size h1

lemma Insert_size {cmp : Bytes → Bytes → Ordering} {s : SkipState}
    {k v : Bytes} {lvl : Nat} {s' : SkipState}
    (h : Insert cmp s k v lvl = some s') :
    s'.current_size = s.current_size + (k.length + v.length) := by
  simp only [Insert, Option.bind_eq_bind', Option.bind_eq_some',
    Option.some.injEq] at h
  obtain ⟨nodeId, hA, node, hB, prev0, hC, next0, hD, s3, h3, rfl⟩ := h
  have hsz := linkLoop_size s.nextId lvl 0 _ next0 prev0 s3 h3
  have hsz2 : s3.current_size = s.current_size := hsz
  show s3.current_size + (k.length + v.length)
      = s.current_size + (k.length + v.length)
  rw [hsz2]

lemma eraseLoop_size :
    ∀ rem level s lo ro s', eraseLoop rem level s lo ro = some s' →
      s'.current_size = s.current_size := by
  intro rem
  induction rem with
  | zero =>
    intro level s lo ro s' h
    unfold eraseLoop at h
    cases h
    rfl
  | succ r ih =>
    intro level s lo ro s' h
    simp only [eraseLoop, Option.bind_eq_bind', Option.bind_eq_some'] at h
    obtain ⟨l, hl, rr, hr, s1, h1, s2, h2, l2, hl2, r2, hr2, h5⟩ := h
    calc s'.current_size
        = s2.current_size := ih (level + 1) s2 (some l2) (some r2) s' h5
      _ = s1.current_size := updPrev_size h2
      _ = s.current_size := updNext_size h1

lemma Erase_size {s : SkipState} {first last : Nat} {s' : SkipState}
    (h : Erase s first last = some s') :
    s'.current_size = s.current_size := by
  simp only [Erase, Option.bind_eq_bind', Option.bind_eq_some',
    Option.some.injEq] at h
  obtain ⟨fn, hA, ln, hB, l0, hC, r0, hD, s1, h1, cl2, h2, rfl⟩ := h
  exact eraseLoop_size s.current_level 0 s l0 r0 s1 h1

lemma runOpsFrom_size (cmp : Bytes → Bytes → Ordering) :
    ∀ ops s s', runOpsFrom cmp s ops = some s' →
      s'.current_size = s.current_size + insertedBytes ops := by
  intro ops
  induction ops with
  | nil =>
    intro s s' h
    simp only [runOpsFrom] at h
    cases h
    simp [insertedBytes]
  | cons op rest ih =>
    intro s s' h
    simp only [runOpsFrom, Option.bind_eq_bind', Option.bind_eq_some'] at h
    obtain ⟨s2, hop, hrest⟩ := h
    have h2 := ih s2 s' hrest
    cases op with
    | ins k v lvl =>
      have h3 : s2.current_size = s.current_size + (k.length + v.length) :=
        Insert_size hop
      simp only [insertedBytes]
      omega
    | del f l =>
      have h3 : s2.current_size = s.current_size := Erase_size hop
      simp only [insertedBytes]
      omega

lemma not_mem_contains_eq_false {l : List Nat} {a : Nat} (h : a ∉ l) :
    l.contains a = false := by
  rw [List.contains_eq_any_beq]
  simp only [List.any_eq_false]
  intro x hx hbe
  exact h (by rw [eq_of_beq hbe]; exact hx)

lemma adoptLoop_stop (cmp : Bytes → Bytes → Ordering) (id : Nat) (n : Node)
    (s : SkipState) (hn : s.heap id = some n)
    (hrefl : ¬ cmp n.key n.key = Ordering.lt) (fuel : Nat) :
    adoptLoop cmp id id (fuel + 1) s id id = some s := by
  unfold adoptLoop
  rw [hn]
  simp [Option.bind_eq_bind', hrefl]

lemma fgeLevel_events_ne_tail (cmp : Bytes → Bytes → Ordering) (s : SkipState)
    (key : Bytes) (i : Nat) :
    ∀ fuel nodeId, tailId ∉ (fgeLevel cmp s key i fuel nodeId).1 := by
  intro fuel
  induction fuel with
  | zero => intro nodeId; simp [fgeLevel]
  | succ f ih =>
    intro nodeId
    unfold fgeLevel
    split
    next => simp
    next n hn =>
      split
      next => simp
      next => simp
      next nxt hx =>
        split
        next h => simp
        next hne =>
          split
          next => simp
          next nn hnn =>
            split
            next hlt =>
              simp only [List.mem_cons, not_or]
              exact ⟨fun h1 => hne h1.symm, ih nxt⟩
            next hge =>
              simp only [List.mem_singleton]
              exact fun h1 => hne h1.symm

lemma fgeDescend_events_ne_tail (cmp : Bytes → Bytes → Ordering)
    (s : SkipState) (key : Bytes) :
    ∀ lv nodeId, tailId ∉ (fgeDescend cmp s key lv nodeId).1 := by
  intro lv
  induction lv with
  | zero => intro nodeId; simp [fgeDescend]
  | succ l ih =>
    intro nodeId
    simp only [fgeDescend]
    split
    next => exact fgeLevel_events_ne_tail cmp s key l (fuelOf s) nodeId
    next nd heq =>
      intro hmem
      rcases List.mem_append.mp hmem with h1 | h2
      · exact fgeLevel_events_ne_tail cmp s key l (fuelOf s) nodeId h1
      · exact ih nd h2

lemma fge_events_ne_tail (cmp : Bytes → Bytes → Ordering) (s : SkipState)
    (key : Bytes) : tailId ∉ (FindGreaterOrEqual cmp s key).1 := by
  simp only [FindGreaterOrEqual]
  split
  next => exact fgeDescend_events_ne_tail cmp s key s.current_level headId
  next nd heq =>
    split
    next => exact fgeDescend_events_ne_tail cmp s key s.current_level headId
    next n hn =>
      split
      next x hx =>
        exact fgeDescend_events_ne_tail cmp s key s.current_level headId
      next ho => exact fgeDescend_events_ne_tail cmp s key s.current_level headId

lemma setUpTo_length (v : Option Nat) :
    ∀ n l, (setUpTo v n l).length = l.length
  | 0, l => rfl
  | n + 1, l => by simp [setUpTo, setUpTo_length v n l]

lemma setUpTo_get?_lt (v : Option Nat) :
    ∀ n l j, j < n → j < l.length → (setUpTo v n l).get? j = some v := by
  intro n
  induction n with
  | zero => intro l j h _; omega
  | succ m ih =>
    intro l j h hlen
    by_cases hj : j = m
    · subst hj
      exact List.get?_set_eq_of_lt v (by rw [setUpTo_length]; exact hlen)
    · rw [setUpTo]
      rw [List.get?_set_ne v _ (fun he => hj he.symm)]
      exact ih l j (by omega) hlen

lemma setUpTo_get?_ge (v : Option Nat) :
    ∀ n l j, n ≤ j → (setUpTo v n l).get? j = l.get? j := by
  intro n
  induction n with
  | zero => intro l j _; rfl
  | succ m ih =>
    intro l j h
    rw [setUpTo]
    rw [List.get?_set_ne v _ (by omega)]
    exact ih l j (by omega)

lemma replicate_get?_lt {α : Type} (a : α) :
    ∀ n j, j < n → (List.replicate n a).get? j = some a
  | n + 1, 0, _ => rfl
  | n + 1, j + 1, h => replicate_get?_lt a n j (by omega)

lemma SkipState.ext' {a b : SkipState} (h1 : ∀ j, a.heap j = b.heap j)
    (h2 : a.nextId = b.nextId) (h3 : a.current_level = b.current_level)
    (h4 : a.current_size = b.current_size) : a = b := by
  cases a
  cases b
  simp only [SkipState.mk.injEq]
  exact ⟨funext h1, h2, h3, h4⟩

lemma fuelOf_ne_zero (s : SkipState) : fuelOf s ≠ 0 := by
  simp [fuelOf]

lemma walkFwd_stop {s : SkipState} {i fuel id : Nat} {n : Node}
    (hfuel : fuel ≠ 0) (hn : s.heap id = some n) (hl : ¬ n.level ≤ i) :
    walkFwd s i fuel id = some id := by
  cases fuel with
  | zero => exact absurd rfl hfuel
  | succ f =>
    unfold walkFwd
    rw [hn]
    simp [hl]

lemma walkBwd_stop {s : SkipState} {i fuel id : Nat} {n : Node}
    (hfuel : fuel ≠ 0) (hn : s.heap id = some n) (hl : ¬ n.level ≤ i) :
    walkBwd s i fuel id = some id := by
  cases fuel with
  | zero => exact absurd rfl hfuel
  | succ f =>
    unfold walkBwd
    rw [hn]
    simp [hl]

lemma linkLoop_step (s : SkipState) (newId L : Nat) (k v : Bytes)
    (hnode tnode : Node)
    (hne0 : newId ≠ headId) (hne1 : newId ≠ tailId)
    (hhl : hnode.level = 32) (htl : tnode.level = 32)
    (hhlen : hnode.next.length = 32) (htlen : tnode.prev.length = 32)
    (i : Nat) (hiL : i < L) (hL : L ≤ 32) (rem : Nat) :
    linkLoop newId (rem + 1) i (linkState s newId k v L hnode tnode i)
      (some tailId) (some headId)
    = linkLoop newId rem (i + 1) (linkState s newId k v L hnode tnode (i + 1))
      (some tailId) (some headId) := by
  have hi32 : i < 32 := by omega
  have hTtail : (linkState s newId k v L hnode tnode i).heap tailId
      = some (tailAt tnode newId i) := by
    simp [linkState, headId, tailId]
  have hThead : (linkState s newId k v L hnode tnode i).heap headId
      = some (headAt hnode newId i) := by
    simp [linkState, headId, tailId]
  have hTnew : (linkState s newId k v L hnode tnode i).heap newId
      = some (newNodeAt k v L i i) := by
    simp [linkState, hne0, hne1]
  have hwf : walkFwd (linkState s newId k v L hnode tnode i) i
      (fuelOf (linkState s newId k v L hnode tnode i)) tailId = some tailId :=
    walkFwd_stop (fuelOf_ne_zero _) hTtail (by simp [tailAt, htl]; omega)
  have hwb : walkBwd (linkState s newId k v L hnode tnode i) i
      (fuelOf (linkState s newId k v L hnode tnode i)) headId = some headId :=
    walkBwd_stop (fuelOf_ne_zero _) hThead (by simp [headAt, hhl]; omega)
  have hlen1 : i < (newNodeAt k v L i i).next.length := by
    simp [newNodeAt, setUpTo_length, Node.make, hiL]
  have hlen2 : i < (tailAt tnode newId i).prev.length := by
    simp [tailAt, setUpTo_length, htlen, hi32]
  have hlen3 : i < (newNodeAt k v L (i + 1) i).prev.length := by
    simp [newNodeAt, setUpTo_length, Node.make, hiL]
  have hlen4 : i < (headAt hnode newId i).next.length := by
    simp [headAt, setUpTo_length, hhlen, hi32]
  -- the four pointer writes, in source order
  have e1 : (linkState s newId k v L hnode tnode i).updNext newId i
        (some tailId)
      = some ((linkState s newId k v L hnode tnode i).setHeap newId
          (newNodeAt k v L (i + 1) i)) := by
    simp only [SkipState.updNext, hTnew, Option.bind_eq_bind',
      Option.some_bind', setPtr, if_pos hlen1]
    rfl
  have e2 : ((linkState s newId k v L hnode tnode i).setHeap newId
        (newNodeAt k v L (i + 1) i)).updPrev tailId i (some newId)
      = some (((linkState s newId k v L hnode tnode i).setHeap newId
          (newNodeAt k v L (i + 1) i)).setHeap tailId
          (tailAt tnode newId (i + 1))) := by
    have hlook : ((linkState s newId k v L hnode tnode i).setHeap newId
          (newNodeAt k v L (i + 1) i)).heap tailId
        = some (tailAt tnode newId i) := by
      simp only [SkipState.setHeap]
      rw [if_neg (Ne.symm hne1)]
      exact hTtail
    simp only [SkipState.updPrev, hlook, Option.bind_eq_bind',
      Option.some_bind', setPtr, if_pos hlen2]
    rfl
  have e3 : (((linkState s newId k v L hnode tnode i).setHeap newId
        (newNodeAt k v L (i + 1) i)).setHeap tailId
        (tailAt tnode newId (i + 1))).updPrev newId i (some headId)
      = some ((((linkState s newId k v L hnode tnode i).setHeap newId
          (newNodeAt k v L (i + 1) i)).setHeap tailId
          (tailAt tnode newId (i + 1))).setHeap newId
          (newNodeAt k v L (i + 1) (i + 1))) := by
    have hlook : (((linkState s newId k v L hnode tnode i).setHeap newId
          (newNodeAt k v L (i + 1) i)).setHeap tailId
          (tailAt tnode newId (i + 1))).heap newId
        = some (newNodeAt k v L (i + 1) i) := by
      simp [SkipState.setHeap, hne1]
    simp only [SkipState.updPrev, hlook, Option.bind_eq_bind',
      Option.some_bind', setPtr, if_pos hlen3]
    rfl
  have e4 : ((((linkState s newId k v L hnode tnode i).setHeap newId
        (newNodeAt k v L (i + 1) i)).setHeap tailId
        (tailAt tnode newId (i + 1))).setHeap newId
        (newNodeAt k v L (i + 1) (i + 1))).updNext headId i (some newId)
      = some (((((linkState s newId k v L hnode tnode i).setHeap newId
          (newNodeAt k v L (i + 1) i)).setHeap tailId
          (tailAt tnode newId (i + 1))).setHeap newId
          (newNodeAt k v L (i + 1) (i + 1))).setHeap headId
          (headAt hnode newId (i + 1))) := by
    have hlook : ((((linkState s newId k v L hnode tnode i).setHeap newId
          (newNodeAt k v L (i + 1) i)).setHeap tailId
          (tailAt tnode newId (i + 1))).setHeap newId
          (newNodeAt k v L (i + 1) (i + 1))).heap headId
        = some (headAt hnode newId i) := by
      simp only [SkipState.setHeap]
      rw [if_neg (Ne.symm hne0), if_neg (show (headId : Nat) ≠ tailId by decide),
        if_neg (Ne.symm hne0)]
      exact hThead
    simp only [SkipState.updNext, hlook, Option.bind_eq_bind',
      Option.some_bind', setPtr, if_pos hlen4]
    rfl
  have hstate : ((((linkState s newId k v L hnode tnode i).setHeap newId
        (newNodeAt k v L (i + 1) i)).setHeap tailId
        (tailAt tnode newId (i + 1))).setHeap newId
        (newNodeAt k v L (i + 1) (i + 1))).setHeap headId
        (headAt hnode newId (i + 1))
      = linkState s newId k v L hnode tnode (i + 1) := by
    refine SkipState.ext' (fun j => ?_) rfl rfl rfl
    simp only [SkipState.setHeap, linkState]
    by_cases hj0 : j = headId
    · subst hj0
      simp [Ne.symm hne0]
    · by_cases hj1 : j = tailId
      · subst hj1
        simp [Ne.symm hne1, show (tailId : Nat) ≠ headId by decide]
      · by_cases hjn : j = newId
        · subst hjn
          simp [hne0, hne1]
        · simp [hj0, hj1, hjn]
  conv_lhs => unfold linkLoop
  rw [Option.bind_eq_bind', Option.some_bind', Option.bind_eq_bind',
    Option.some_bind']
  rw [hwf, hwb]
  rw [Option.bind_eq_bind', Option.some_bind', Option.bind_eq_bind',
    Option.some_bind']
  rw [e1, Option.bind_eq_bind', Option.some_bind']
  rw [e2, Option.bind_eq_bind', Option.some_bind']
  rw [e3, Option.bind_eq_bind', Option.some_bind']
  rw [e4, Option.bind_eq_bind', Option.some_bind']
  rw [hstate]


lemma linkLoop_sentinels (s : SkipState) (newId L : Nat) (k v : Bytes)
    (hnode tnode : Node)
    (hne0 : newId ≠ headId) (hne1 : newId ≠ tailId)
    (hhl : hnode.level = 32) (htl : tnode.level = 32)
    (hhlen : hnode.next.length = 32) (htlen : tnode.prev.length = 32)
    (hL : L ≤ 32) :
    ∀ rem i, i + rem = L →
      linkLoop newId rem i (linkState s newId k v L hnode tnode i)
        (some tailId) (some headId)
      = some (linkState s newId k v L hnode tnode L) := by
  intro rem
  induction rem with
  | zero =>
    intro i hi
    have hiL : i = L := by omega
    subst hiL
    rfl
  | succ r ih =>
    intro i hi
    rw [linkLoop_step s newId L k v hnode tnode hne0 hne1 hhl htl hhlen htlen
      i (by omega) hL r]
    exact ih (i + 1) (by omega)

lemma linkState_zero (s : SkipState) (newId : Nat) (k v : Bytes) (L : Nat)
    (hnode tnode : Node) (h0 : s.heap headId = some hnode)
    (h1 : s.heap tailId = some tnode)
    (h2 : s.heap newId = some (Node.make k v L)) :
    linkState s newId k v L hnode tnode 0 = s := by
  refine SkipState.ext' (fun j => ?_) rfl rfl rfl
  simp only [linkState]
  by_cases hj0 : j = headId
  · subst hj0
    rw [if_pos rfl, h0]
    rfl
  · rw [if_neg hj0]
    by_cases hj1 : j = tailId
    · subst hj1
      rw [if_pos rfl, h1]
      rfl
    · rw [if_neg hj1]
      by_cases hjn : j = newId
      · subst hjn
        rw [if_pos rfl, h2]
        rfl
      · rw [if_neg hjn]


lemma setHeap_nextId (s : SkipState) (id : Nat) (n : Node) :
    (s.setHeap id n).nextId = s.nextId := rfl

lemma setHeap_level (s : SkipState) (id : Nat) (n : Node) :
    (s.setHeap id n).current_level = s.current_level := rfl

lemma setHeap_csize (s : SkipState) (id : Nat) (n : Node) :
    (s.setHeap id n).current_size = s.current_size := rfl

lemma Insert_empty (c : Nat) (cs v : Bytes) (L : Nat) (h1L : 1 ≤ L)
    (hL : L ≤ 32) :
    Insert cmpBytes emptySkiplist (c :: cs) v L
      = some (dupState1 (c :: cs) v L) := by
  have hfge : (FindGreaterOrEqual cmpBytes emptySkiplist (c :: cs)).2
      = some tailId := rfl
  have hh1 : emptySkiplist.heap tailId = some tailNode := rfl
  have hprev : tailNode.prev.get? 0 = some (some headId) := rfl
  have hcmp : cmpBytes tailNode.key (c :: cs) = Ordering.lt := rfl
  have hnid : emptySkiplist.nextId = 2 := rfl
  have hclv : emptySkiplist.current_level = 0 := rfl
  have hcsz : emptySkiplist.current_size = 0 := rfl
  simp only [Insert, hfge, hh1, hprev, hcmp, Option.bind_eq_bind',
    Option.some_bind', setHeap_nextId, setHeap_level, setHeap_csize,
    hnid, hclv, hcsz]
  rw [if_neg (show ¬ (Ordering.lt = Ordering.eq) by decide)]
  rw [Option.some_bind']
  rw [if_pos (show L > 0 by omega)]
  rw [← linkState_zero
    { heap := (emptySkiplist.setHeap 2 (Node.make (c :: cs) v L)).heap,
      nextId := 2 + 1, current_level := L, current_size := 0 }
    2 (c :: cs) v L headNode tailNode rfl rfl rfl]
  rw [linkLoop_sentinels _ 2 L (c :: cs) v headNode tailNode
    (by decide) (by decide) rfl rfl rfl rfl hL L 0 (by omega)]
  rw [Option.some_bind']
  refine congrArg some (SkipState.ext' (fun j => ?_) rfl rfl ?_)
  · simp only [linkState, dupState1]
    by_cases hj0 : j = headId
    · simp [hj0]
    · by_cases hj1 : j = tailId
      · simp [hj0, hj1]
      · by_cases hj2 : j = 2
        · simp [hj0, hj1, hj2]
        · simp only [if_neg hj0, if_neg hj1, if_neg hj2, SkipState.setHeap]
          simp [emptySkiplist, hj0, hj1]
  · simp [linkState, dupState1]


lemma fgeLevel_stay {cmp : Bytes → Bytes → Ordering} {s : SkipState}
    {key : Bytes} {i fuel nodeId nxt : Nat} {n nn : Node}
    (hfuel : fuel ≠ 0) (hn : s.heap nodeId = some n)
    (hx : n.next.get? i = some (some nxt)) (hnt : nxt ≠ tailId)
    (hnn : s.heap nxt = some nn) (hcmp : ¬ cmp nn.key key = Ordering.lt) :
    fgeLevel cmp s key i fuel nodeId = ([nxt], some nodeId) := by
  cases fuel with
  | zero => exact absurd rfl hfuel
  | succ f =>
    unfold fgeLevel
    rw [hn]
    rw [List.get?_eq_getElem?] at hx
    simp [hx, hnt, hnn, hcmp]

lemma fgeLevel_tail {cmp : Bytes → Bytes → Ordering} {s : SkipState}
    {key : Bytes} {i fuel nodeId : Nat} {n : Node}
    (hfuel : fuel ≠ 0) (hn : s.heap nodeId = some n)
    (hx : n.next.get? i = some (some tailId)) :
    fgeLevel cmp s key i fuel nodeId = ([], some nodeId) := by
  cases fuel with
  | zero => exact absurd rfl hfuel
  | succ f =>
    unfold fgeLevel
    rw [hn]
    rw [List.get?_eq_getElem?] at hx
    simp [hx]

lemma fgeDescend_stay {cmp : Bytes → Bytes → Ordering} {s : SkipState}
    {key : Bytes} :
    ∀ lv, (∀ idx, idx < lv →
        (fgeLevel cmp s key idx (fuelOf s) headId).2 = some headId) →
      (fgeDescend cmp s key lv headId).2 = some headId := by
  intro lv
  induction lv with
  | zero => intro _; rfl
  | succ l ih =>
    intro hstay
    simp only [fgeDescend]
    split
    next heq =>
      rw [hstay l (by omega)] at heq
      exact Option.noConfusion heq
    next nd heq =>
      rw [hstay l (by omega)] at heq
      injection heq with h
      subst h
      exact ih fun idx hidx => hstay idx (by omega)

lemma fge_result {cmp : Bytes → Bytes → Ordering} {s : SkipState}
    {key : Bytes} {hn : Node} {x : Nat}
    (hstay : (fgeDescend cmp s key s.current_level headId).2 = some headId)
    (hh : s.heap headId = some hn) (hx : hn.next.get? 0 = some (some x)) :
    (FindGreaterOrEqual cmp s key).2 = some x := by
  simp only [FindGreaterOrEqual]
  split
  next heq =>
    rw [hstay] at heq
    exact Option.noConfusion heq
  next nd heq =>
    rw [hstay] at heq
    injection heq with h
    subst h
    split
    next heq2 =>
      rw [hh] at heq2
      exact Option.noConfusion heq2
    next n2 heq2 =>
      rw [hh] at heq2
      injection heq2 with h2
      subst h2
      split
      next x2 heq3 =>
        rw [hx] at heq3
        injection heq3 with h3
        injection h3 with h4
        subst h4
        rfl
      next ho =>
        exact absurd hx (by intro hc; exact (ho _ hc).elim)


lemma dupState1_stay (c : Nat) (cs v1 : Bytes) (L1 : Nat) (h2 : L1 ≤ 32) :
    ∀ idx, idx < L1 →
      (fgeLevel cmpBytes (dupState1 (c :: cs) v1 L1) (c :: cs) idx
        (fuelOf (dupState1 (c :: cs) v1 L1)) headId).2 = some headId := by
  intro idx hidx
  rw [@fgeLevel_stay cmpBytes (dupState1 (c :: cs) v1 L1) (c :: cs) idx
    (fuelOf (dupState1 (c :: cs) v1 L1)) headId 2 (headAt headNode 2 L1)
    (newNodeAt (c :: cs) v1 L1 L1 L1)
    (fuelOf_ne_zero _) rfl
    (setUpTo_get?_lt (some 2) L1 headNode.next idx hidx (by
      show idx < headNode.next.length
      simp [headNode, maxLevel]
      omega))
    (by decide) rfl
    (by show ¬ cmpBytes (c :: cs) (c :: cs) = Ordering.lt
        rw [cmpBytes_self]
        decide)]

lemma Insert_second (c : Nat) (cs v1 v2 : Bytes) (L1 L2 : Nat)
    (h1 : 1 ≤ L1) (h2 : L1 ≤ 32) (h3 : 1 ≤ L2) (h4 : L2 ≤ 32) :
    Insert cmpBytes (dupState1 (c :: cs) v1 L1) (c :: cs) v2 L2
      = some (dupState2 (c :: cs) v1 v2 L1 L2) := by
  have hfge : (FindGreaterOrEqual cmpBytes (dupState1 (c :: cs) v1 L1)
      (c :: cs)).2 = some 2 := by
    refine fge_result ?_ rfl
      (setUpTo_get?_lt (some 2) L1 headNode.next 0 (by omega) (by
        show 0 < headNode.next.length
        simp [headNode, maxLevel]))
    exact fgeDescend_stay L1 (dupState1_stay c cs v1 L1 h2)
  have hh2 : (dupState1 (c :: cs) v1 L1).heap 2
      = some (newNodeAt (c :: cs) v1 L1 L1 L1) := rfl
  have hprev : (newNodeAt (c :: cs) v1 L1 L1 L1).prev.get? 0
      = some (some headId) := by
    exact setUpTo_get?_lt (some headId) L1 (List.replicate L1 none) 0
      (by omega) (by simp [List.length_replicate]; omega)
  have hnext : (newNodeAt (c :: cs) v1 L1 L1 L1).next.get? 0
      = some (some tailId) := by
    exact setUpTo_get?_lt (some tailId) L1 (List.replicate L1 none) 0
      (by omega) (by simp [List.length_replicate]; omega)
  have hkey : (newNodeAt (c :: cs) v1 L1 L1 L1).key = (c :: cs) := rfl
  have hnid : (dupState1 (c :: cs) v1 L1).nextId = 3 := rfl
  have hclv : (dupState1 (c :: cs) v1 L1).current_level = L1 := rfl
  have hcsz : (dupState1 (c :: cs) v1 L1).current_size
      = (c :: cs).length + v1.length := rfl
  simp only [Insert, hfge, hh2, hprev, Option.bind_eq_bind',
    Option.some_bind', setHeap_nextId, setHeap_level, setHeap_csize,
    hnid, hclv, hcsz]
  rw [hkey, if_pos (cmpBytes_self (c :: cs)), hnext, Option.some_bind']
  rw [← linkState_zero
    { heap := ((dupState1 (c :: cs) v1 L1).setHeap 3
        (Node.make (c :: cs) v2 L2)).heap,
      nextId := 3 + 1,
      current_level := if L2 > L1 then L2 else L1,
      current_size := (c :: cs).length + v1.length }
    3 (c :: cs) v2 L2 (headAt headNode 2 L1) (tailAt tailNode 2 L1)
    rfl rfl rfl]
  rw [linkLoop_sentinels _ 3 L2 (c :: cs) v2
    (headAt headNode 2 L1) (tailAt tailNode 2 L1)
    (by decide) (by decide) rfl rfl
    (by show (setUpTo (some 2) L1 headNode.next).length = 32
        rw [setUpTo_length]
        rfl)
    (by show (setUpTo (some 2) L1 tailNode.prev).length = 32
        rw [setUpTo_length]
        rfl)
    h4 L2 0 (by omega)]
  rw [Option.some_bind']
  refine congrArg some (SkipState.ext' (fun j => ?_) rfl rfl ?_)
  · simp only [linkState, dupState2]
    by_cases hj0 : j = headId
    · simp [hj0]
    · by_cases hj1 : j = tailId
      · simp [hj0, hj1]
      · by_cases hj3 : j = 3
        · simp [hj0, hj1, hj3]
        · by_cases hj2 : j = 2
          · subst hj2
            simp [hj0, hj1, hj3, SkipState.setHeap, dupState1]
          · simp [hj0, hj1, hj2, hj3, SkipState.setHeap, dupState1]
  · simp [linkState, dupState2]


lemma chainFrom_end (s : SkipState) (fuel : Nat) :
    chainFrom s (fuel + 1) tailId = some [] := by
  unfold chainFrom
  simp

lemma chainFrom_cons {s : SkipState} {fuel id nx : Nat} {n : Node}
    {r : List Nat} (hid : id ≠ tailId) (hn : s.heap id = some n)
    (hx : n.next.get? 0 = some (some nx)) (hr : chainFrom s fuel nx = some r) :
    chainFrom s (fuel + 1) id = some (id :: r) := by
  unfold chainFrom
  rw [if_neg hid, hn]
  rw [List.get?_eq_getElem?] at hx
  simp [hx, hr]

lemma walkIds_eq {s : SkipState} {hn : Node} {nx : Nat}
    (hh : s.heap headId = some hn) (hx : hn.next.get? 0 = some (some nx)) :
    walkIds s = chainFrom s (fuelOf s) nx := by
  unfold walkIds
  rw [hh]
  rw [List.get?_eq_getElem?] at hx
  simp [hx]

lemma head2_get?_lt3 (c : Nat) (cs : Bytes) {L1 L2 idx : Nat}
    (hA : idx < L2) (h32 : idx < 32) :
    (headAt (headAt headNode 2 L1) 3 L2).next.get? idx = some (some 3) :=
  setUpTo_get?_lt (some 3) L2 _ idx hA
    (by rw [show (headAt headNode 2 L1).next
          = setUpTo (some 2) L1 headNode.next from rfl, setUpTo_length]
        exact h32)

lemma head2_get?_lt2 {L1 L2 idx : Nat} (hA : ¬ idx < L2) (hB : idx < L1)
    (h32 : idx < 32) :
    (headAt (headAt headNode 2 L1) 3 L2).next.get? idx = some (some 2) := by
  have hge := setUpTo_get?_ge (some 3) L2
    (setUpTo (some 2) L1 headNode.next) idx (by omega)
  have hlt := setUpTo_get?_lt (some 2) L1 headNode.next idx hB
    (by show idx < headNode.next.length
        simp [headNode, maxLevel]
        omega)
  exact hge.trans hlt

lemma head2_get?_tail {L1 L2 idx : Nat} (hA : ¬ idx < L2) (hB : ¬ idx < L1)
    (h32 : idx < 32) :
    (headAt (headAt headNode 2 L1) 3 L2).next.get? idx
      = some (some tailId) := by
  have hge1 := setUpTo_get?_ge (some 3) L2
    (setUpTo (some 2) L1 headNode.next) idx (by omega)
  have hge2 := setUpTo_get?_ge (some 2) L1 headNode.next idx (by omega)
  have hrep : headNode.next.get? idx = some (some tailId) :=
    replicate_get?_lt (some tailId) 32 idx h32
  exact hge1.trans (hge2.trans hrep)

lemma dupState2_stay (c : Nat) (cs v1 v2 : Bytes) (L1 L2 : Nat)
    (h2 : L1 ≤ 32) (h4 : L2 ≤ 32) :
    ∀ idx, idx < (if L2 > L1 then L2 else L1) →
      (fgeLevel cmpBytes (dupState2 (c :: cs) v1 v2 L1 L2) (c :: cs) idx
        (fuelOf (dupState2 (c :: cs) v1 v2 L1 L2)) headId).2
        = some headId := by
  intro idx hidx
  have h32 : idx < 32 := by
    by_cases h : L2 > L1 <;> simp [h] at hidx <;> omega
  by_cases hA : idx < L2
  · rw [@fgeLevel_stay cmpBytes (dupState2 (c :: cs) v1 v2 L1 L2) (c :: cs)
      idx (fuelOf (dupState2 (c :: cs) v1 v2 L1 L2)) headId 3
      (headAt (headAt headNode 2 L1) 3 L2) (newNodeAt (c :: cs) v2 L2 L2 L2)
      (fuelOf_ne_zero _) rfl (head2_get?_lt3 c cs hA h32) (by decide) rfl
      (by show ¬ cmpBytes (c :: cs) (c :: cs) = Ordering.lt
          rw [cmpBytes_self]
          decide)]
  · by_cases hB : idx < L1
    · rw [@fgeLevel_stay cmpBytes (dupState2 (c :: cs) v1 v2 L1 L2) (c :: cs)
        idx (fuelOf (dupState2 (c :: cs) v1 v2 L1 L2)) headId 2
        (headAt (headAt headNode 2 L1) 3 L2) (newNodeAt (c :: cs) v1 L1 L1 L1)
        (fuelOf_ne_zero _) rfl (head2_get?_lt2 hA hB h32) (by decide) rfl
        (by show ¬ cmpBytes (c :: cs) (c :: cs) = Ordering.lt
            rw [cmpBytes_self]
            decide)]
    · exact absurd hidx (by by_cases h : L2 > L1 <;> simp [h] <;> omega)

lemma walkIds_dupState2 (c : Nat) (cs v1 v2 : Bytes) (L1 L2 : Nat)
    (h3 : 1 ≤ L2) :
    walkIds (dupState2 (c :: cs) v1 v2 L1 L2) = some [3] := by
  rw [@walkIds_eq (dupState2 (c :: cs) v1 v2 L1 L2)
    (headAt (headAt headNode 2 L1) 3 L2) 3 rfl
    (setUpTo_get?_lt (some 3) L2 _ 0 (by omega)
      (by rw [show (headAt headNode 2 L1).next
            = setUpTo (some 2) L1 headNode.next from rfl, setUpTo_length]
          decide))]
  exact @chainFrom_cons (dupState2 (c :: cs) v1 v2 L1 L2) 67 3 tailId
    (newNodeAt (c :: cs) v2 L2 L2 L2) [] (by decide)
    (rfl : (dupState2 (c :: cs) v1 v2 L1 L2).heap 3
      = some (newNodeAt (c :: cs) v2 L2 L2 L2))
    (setUpTo_get?_lt (some tailId) L2 (List.replicate L2 none) 0 (by omega)
      (by simp [List.length_replicate]; omega))
    (chainFrom_end _ 66)

lemma Find_dupState2 (c : Nat) (cs v1 v2 : Bytes) (L1 L2 : Nat)
    (h2 : L1 ≤ 32) (h3 : 1 ≤ L2) (h4 : L2 ≤ 32) :
    Find cmpBytes (dupState2 (c :: cs) v1 v2 L1 L2) (c :: cs)
      = some (some 3) := by
  have hfge : (FindGreaterOrEqual cmpBytes
      (dupState2 (c :: cs) v1 v2 L1 L2) (c :: cs)).2 = some 3 := by
    refine fge_result ?_ rfl
      (setUpTo_get?_lt (some 3) L2 _ 0 (by omega)
        (by rw [show (headAt headNode 2 L1).next
              = setUpTo (some 2) L1 headNode.next from rfl, setUpTo_length]
            decide))
    exact fgeDescend_stay _ (dupState2_stay c cs v1 v2 L1 L2 h2 h4)
  have hh3 : (dupState2 (c :: cs) v1 v2 L1 L2).heap 3
      = some (newNodeAt (c :: cs) v2 L2 L2 L2) := rfl
  unfold Find
  rw [hfge]
  simp [hh3, show (newNodeAt (c :: cs) v2 L2 L2 L2).key = (c :: cs) from rfl,
    cmpBytes_self]


end PersistentSkiplist

namespace Index

lemma treeCalls_append (a b : List Effect) :
    treeCalls (a ++ b) = treeCalls a ++ treeCalls b := by
  simp [treeCalls, List.filter_append]

lemma treeCalls_entry (szMeta : Nat) (e : KeyAndMeta) :
    treeCalls (entryEffects szMeta e) = [entryCall e] := by
  by_cases h : e.prev_file_number = 0 <;>
    simp [entryEffects, entryCall, treeCalls, InsertTrace, UpdateTrace,
      isTreeCall, List.filter, h]

end Index

/-! ### Claim theorems -/

open PersistentSkiplist

/-- C1, counterexample.  Insert key `k` (byte 107) twice into a fresh
skiplist, both drawn levels 1.  The claim asserts both nodes stay reachable by
walking `next[0]` from `head`; in fact the walk contains only the second
insert's node (identity 3): the first insert's node (identity 2) has been
bypassed, because `Insert` reads `prev_node = node->prev[0]` before the
equal-key test and so links the new node between the OLD node's neighbours.
`Find` does return the newer node — but because the old one was unlinked, not
because the new one sits after it. -/
theorem C1_duplicate_insert_counterexample :
    obsWalkIds (runOps cmpBytes
      [SkipOp.ins [107] [120] 1, SkipOp.ins [107] [121] 1]) = some [3] ∧
    obsFind cmpBytes (runOps cmpBytes
      [SkipOp.ins [107] [120] 1, SkipOp.ins [107] [121] 1]) [107]
      = some (some 3) := by decide

/-- C1, amended.  For every non-empty key, all values, and every pair of
drawn random levels in `[1, 32]`, after inserting the same key twice into a
fresh skiplist only the newer node (identity 3) is reachable by walking
`next[0]` from `head` — the older equal node is bypassed at every level — and
`Find` on that key returns exactly the first `GreaterOrEqual` hit, which is
the newer node because it took over the old node's place in the chain. -/
theorem C1_duplicate_insert_amended (k v1 v2 : Bytes) (hk : k ≠ [])
    (L1 L2 : Nat) (h11 : 1 ≤ L1) (h12 : L1 ≤ 32) (h21 : 1 ≤ L2)
    (h22 : L2 ≤ 32) :
    obsWalkIds (runOps cmpBytes
      [SkipOp.ins k v1 L1, SkipOp.ins k v2 L2]) = some [3] ∧
    obsFind cmpBytes (runOps cmpBytes
      [SkipOp.ins k v1 L1, SkipOp.ins k v2 L2]) k = some (some 3) := by
  obtain ⟨c, cs, rfl⟩ : ∃ c cs, k = c :: cs := by
    cases k with
    | nil => exact absurd rfl hk
    | cons c cs => exact ⟨c, cs, rfl⟩
  have hrun : runOps cmpBytes
      [SkipOp.ins (c :: cs) v1 L1, SkipOp.ins (c :: cs) v2 L2]
      = some (dupState2 (c :: cs) v1 v2 L1 L2) := by
    simp only [runOps, runOpsFrom, runOp, Option.bind_eq_bind']
    rw [Insert_empty c cs v1 L1 h11 h12, Option.some_bind']
    rw [Insert_second c cs v1 v2 L1 L2 h11 h12 h21 h22, Option.some_bind']
  rw [hrun]
  constructor
  · simpa [obsWalkIds] using walkIds_dupState2 c cs v1 v2 L1 L2 h21
  · simpa [obsFind] using Find_dupState2 c cs v1 v2 L1 L2 h12 h21 h22

/-- C1, witness for the amended theorem: key "k", values "x"/"y", both levels
drawn 1. -/
theorem C1_duplicate_insert_amended_witness :
    obsWalkIds (runOps cmpBytes
      [SkipOp.ins [107] [120] 1, SkipOp.ins [107] [121] 1]) = some [3] ∧
    obsFind cmpBytes (runOps cmpBytes
      [SkipOp.ins [107] [120] 1, SkipOp.ins [107] [121] 1]) [107]
      = some (some 3) :=
  C1_duplicate_insert_amended [107] [120] [121] (by decide) 1 1 (by decide)
    (by decide) (by decide) (by decide)

/-- C2, counterexample.  The valid program insert "a"/"x", insert "b"/"y",
erase the "b" node leaves `current_size = 4` (all four inserted bytes) while
the live nodes reachable via `next[0]` hold only 2 bytes: `Erase` never
decrements `current_size`, so the claimed invariant fails on states reachable
with `Erase`. -/
theorem C2_size_counterexample :
    opsValid cmpBytes
      [SkipOp.ins [97] [120] 1, SkipOp.ins [98] [121] 1, SkipOp.del 3 3]
      = true ∧
    obsSize (runOps cmpBytes
      [SkipOp.ins [97] [120] 1, SkipOp.ins [98] [121] 1, SkipOp.del 3 3])
      = some 4 ∧
    obsLiveBytes (runOps cmpBytes
      [SkipOp.ins [97] [120] 1, SkipOp.ins [98] [121] 1, SkipOp.del 3 3])
      = some 2 := by decide

/-- C2, amended.  For every state reachable from a freshly constructed empty
skiplist by any sequence of `Insert` and `Erase` operations,
`ApproximateMemoryUsage` (`current_size`) equals the total key+value bytes
over ALL the `Insert` operations performed: `Insert` always adds the new
node's size and `Erase` (and a bypassed duplicate) never subtracts
anything. -/
theorem C2_size_amended (cmp : Bytes → Bytes → Ordering) (ops : List SkipOp)
    (s' : SkipState) (h : runOps cmp ops = some s') :
    s'.ApproximateMemoryUsage = insertedBytes ops := by
  have h2 := runOpsFrom_size cmp ops emptySkiplist s' h
  simpa [SkipState.ApproximateMemoryUsage, emptySkiplist] using h2

/-- C2, witness for the amended theorem at a concrete program. -/
theorem C2_size_amended_witness :
    ∃ s', runOps cmpBytes
        [SkipOp.ins [97] [120] 1, SkipOp.ins [98] [121] 1, SkipOp.del 3 3]
        = some s' ∧
      s'.ApproximateMemoryUsage = insertedBytes
        [SkipOp.ins [97] [120] 1, SkipOp.ins [98] [121] 1,
         SkipOp.del 3 3] := by
  have hs : (runOps cmpBytes
      [SkipOp.ins [97] [120] 1, SkipOp.ins [98] [121] 1,
        SkipOp.del 3 3]).isSome = true := by decide
  obtain ⟨s', hr⟩ := Option.isSome_iff_exists.mp hs
  exact ⟨s', hr, C2_size_amended cmpBytes _ s' hr⟩

/-- C3, code bug, evaluated at the failing inputs.  (i) Insert a single node
(level 1) — the walk shows key "a" and `current_level = 1` — then `Erase` that
only node: the shrink loop finds `head->next[1] == tail` and
`head->next[0] == tail`, decrements `current_level` from 0, the `size_t` wraps
to `2^64 - 1`, and the next loop test reads `head->next[2^64-1]` out of range
(modelled as the fault `none`): the decrement loop does go below zero.
(ii) Insert "a" at level 2 and "b" at level 1, then erase the "b" node: the
shrink loop always fires at least once (index `current_level` is never
occupied), leaving `current_level = 1` while the live node "a" has level 2 —
`current_level` does not equal the maximum level across live nodes. -/
theorem C3_current_level_bug :
    opsValid cmpBytes [SkipOp.ins [97] [120] 1, SkipOp.del 2 2] = true ∧
    obsWalkKeys (runOps cmpBytes [SkipOp.ins [97] [120] 1]) = some [[97]] ∧
    obsLevel (runOps cmpBytes [SkipOp.ins [97] [120] 1]) = some 1 ∧
    (runOps cmpBytes [SkipOp.ins [97] [120] 1, SkipOp.del 2 2]).isNone
      = true ∧
    opsValid cmpBytes
      [SkipOp.ins [97] [120] 2, SkipOp.ins [98] [121] 1, SkipOp.del 3 3]
      = true ∧
    obsLevel (runOps cmpBytes
      [SkipOp.ins [97] [120] 2, SkipOp.ins [98] [121] 1, SkipOp.del 3 3])
      = some 1 ∧
    obsMaxLiveLevel (runOps cmpBytes
      [SkipOp.ins [97] [120] 2, SkipOp.ins [98] [121] 1, SkipOp.del 3 3])
      = some 2 := by decide

/-- C4.  `Index::Insert(key, meta)` emits exactly the effect sequence
`flush(meta, sizeof(IndexMeta))`, `flush(&key, 4)`, `tree.insert(key, meta)`;
every `tree.insert` in the trace is preceded by the flush of the metadata
block it publishes and by the flush of the key word, and never followed by the
metadata flush. -/
theorem C4_insert_flush_order (szMeta k : Nat) (m : Index.MetaPtr) :
    Index.InsertTrace szMeta k m =
      [Index.Effect.flush (Index.Addr.metaBlock m) szMeta,
       Index.Effect.flush (Index.Addr.keyWord k) 4,
       Index.Effect.treeInsert k m] ∧
    (∀ i : Nat,
      (Index.InsertTrace szMeta k m).get? i
          = some (Index.Effect.treeInsert k m) →
      (∃ j1, j1 < i ∧ (Index.InsertTrace szMeta k m).get? j1
          = some (Index.Effect.flush (Index.Addr.metaBlock m) szMeta)) ∧
      (∃ j2, j2 < i ∧ (Index.InsertTrace szMeta k m).get? j2
          = some (Index.Effect.flush (Index.Addr.keyWord k) 4))) ∧
    (∀ i j : Nat,
      (Index.InsertTrace szMeta k m).get? i
          = some (Index.Effect.treeInsert k m) →
      (Index.InsertTrace szMeta k m).get? j
          = some (Index.Effect.flush (Index.Addr.metaBlock m) szMeta) →
      j < i) := by
  refine ⟨rfl, ?_, ?_⟩
  · intro i hi
    rcases i with _ | _ | _ | i
    · simp [Index.InsertTrace] at hi
    · simp [Index.InsertTrace] at hi
    · exact ⟨⟨0, by omega, rfl⟩, ⟨1, by omega, rfl⟩⟩
    · simp [Index.InsertTrace] at hi
  · intro i j hi hj
    rcases i with _ | _ | _ | i
    · simp [Index.InsertTrace] at hi
    · simp [Index.InsertTrace] at hi
    · rcases j with _ | _ | _ | j
      · omega
      · simp [Index.InsertTrace] at hj
      · simp [Index.InsertTrace] at hj
      · simp [Index.InsertTrace] at hj
    · simp [Index.InsertTrace] at hi

/-- C4, witness: the trace of `Insert(5, meta at 7)` with
`sizeof(IndexMeta) = 16` has both flushes strictly before its tree insert at
position 2. -/
theorem C4_insert_flush_order_witness :
    (∃ j1, j1 < 2 ∧ (Index.InsertTrace 16 5 7).get? j1
        = some (Index.Effect.flush (Index.Addr.metaBlock 7) 16)) ∧
    (∃ j2, j2 < 2 ∧ (Index.InsertTrace 16 5 7).get? j2
        = some (Index.Effect.flush (Index.Addr.keyWord 5) 4)) :=
  (C4_insert_flush_order 16 5 7).2.1 2 rfl

/-- C5, code bug, evaluated at the failing input.  A valid 9-operation program
(all erase arguments are live single nodes) drives the skiplist into a state
whose `next[0]` walk from `head` yields the keys a, b, e, d, f — NOT in
non-decreasing comparator order.  Mechanism: the shrink loop's off-by-one
leaves `current_level` below the level of live nodes, the following `Erase`
then unlinks a level-2 node at level 0 only, leaving a dangling level-1
pointer to the unlinked node; a later insert raises `current_level` again, the
descent of `FindGreaterOrEqual` walks through the dead node's stale pointers,
and the final insert is linked after a larger key. -/
theorem C5_ordering_violation :
    opsValid cmpBytes
      [SkipOp.ins [98] [0] 2, SkipOp.ins [99] [0] 2, SkipOp.ins [102] [0] 1,
       SkipOp.ins [115] [0] 1, SkipOp.del 5 5, SkipOp.del 3 3,
       SkipOp.ins [101] [0] 1, SkipOp.ins [97] [0] 2, SkipOp.ins [100] [0] 1]
      = true ∧
    obsWalkKeys (runOps cmpBytes
      [SkipOp.ins [98] [0] 2, SkipOp.ins [99] [0] 2, SkipOp.ins [102] [0] 1,
       SkipOp.ins [115] [0] 1, SkipOp.del 5 5, SkipOp.del 3 3,
       SkipOp.ins [101] [0] 1, SkipOp.ins [97] [0] 2, SkipOp.ins [100] [0] 1])
      = some [[97], [98], [101], [100], [102]] ∧
    keysSorted [[97], [98], [101], [100], [102]] = false := by decide

/-- C6.  One drain pass of the background `Runner` leaves the queue empty,
emits exactly the concatenation of each entry's effects in front-to-back
(FIFO enqueue) order, and the backing tree receives `insert(key, meta)` for an
entry with `prev_file_number == 0` and `update(key, prev_file_number, meta)`
otherwise, one call per entry, in enqueue order. -/
theorem C6_runner_drain_fifo (szMeta : Nat) (q : List Index.KeyAndMeta) :
    (Index.Runner szMeta q).2 = [] ∧
    (Index.Runner szMeta q).1 = q.flatMap (Index.entryEffects szMeta) ∧
    Index.treeCalls (Index.Runner szMeta q).1 = q.map Index.entryCall := by
  induction q with
  | nil => exact ⟨rfl, rfl, rfl⟩
  | cons e rest ih =>
    obtain ⟨ih1, ih2, ih3⟩ := ih
    refine ⟨ih1, ?_, ?_⟩
    · simp [Index.Runner, ih2]
    · simp [Index.Runner, Index.treeCalls_append, Index.treeCalls_entry, ih3]

/-- C7.  `Index::Get` consults the backing tree with the unsigned 32-bit
integer obtained by parsing the leading ASCII decimal digits of the argument,
stopping at the first non-digit, with absence of digits yielding 0:
`Get("12345xyz")` queries key 12345, `Get("")` queries key 0, `Get("007")`
queries key 7, and in general `Get` queries `fast_atoi` of the bytes. -/
theorem C7_get_parses_leading_digits (tree : Nat → Option Index.MetaPtr) :
    Index.Get tree [49, 50, 51, 52, 53, 120, 121, 122] = tree 12345 ∧
    Index.Get tree [] = tree 0 ∧
    Index.Get tree [48, 48, 55] = tree 7 ∧
    ∀ key : Bytes, Index.Get tree key = tree (Index.fast_atoi key) :=
  ⟨rfl, rfl, rfl, fun _ => rfl⟩

/-- C8, counterexample.  Inserting key "a" into a freshly constructed empty
skiplist makes `FindGreaterOrEqual` return `tail`, and the `Equal` test of
`Insert` then hands the TAIL sentinel's (empty) key to the comparator — the
recorded comparator operands are exactly `[tailId]`; the same happens in
`Find`.  So the sentinels are not never-compared. -/
theorem C8_sentinel_compare_counterexample :
    insertEvents cmpBytes emptySkiplist [97] = [tailId] ∧
    findEvents cmpBytes emptySkiplist [97] = [tailId] := by decide

/-- C8, amended.  Within `FindGreaterOrEqual` itself the tail sentinel's key
is never a comparator operand — every comparison is guarded by
`node->next[i] != tail` — in every state and for every comparator and key;
the sentinel keys reach the comparator only through the `Equal` test of
`Insert`/`Find` on the returned node when the search runs past the last live
node (`Erase` performs no comparisons at all). -/
theorem C8_fge_never_compares_tail (cmp : Bytes → Bytes → Ordering)
    (s : SkipState) (key : Bytes) :
    ((FindGreaterOrEqual cmp s key).1).contains tailId = false :=
  not_mem_contains_eq_false (fge_events_ne_tail cmp s key)

/-- C9.  Under the asserted precondition that the internal queue is empty,
`AddQueue(batch)` swaps: the internal queue afterwards holds exactly the
caller's batch in the caller's original order (and the caller gets the empty
queue back). -/
theorem C9_addqueue_swap (internal batch : List Index.KeyAndMeta)
    (h : internal = []) :
    Index.AddQueue internal batch = some (batch, []) := by
  subst h
  simp [Index.AddQueue]

/-- C9, witness at a concrete two-element batch. -/
theorem C9_addqueue_swap_witness :
    Index.AddQueue ([] : List Index.KeyAndMeta)
      [⟨1, 0, 5⟩, ⟨2, 3, 6⟩] = some ([⟨1, 0, 5⟩, ⟨2, 3, 6⟩], []) :=
  C9_addqueue_swap [] [⟨1, 0, 5⟩, ⟨2, 3, 6⟩] rfl

/-- C10, counterexample.  Adopting a single-node chain (`first == last`) never
executes the loop body, so the skiplist behaves like an empty one — but on an
empty skiplist `Find` with the EMPTY key does not return null: it returns the
tail sentinel (whose key compares equal), so "every subsequent Find returns
null" fails at the empty key. -/
theorem C10_adopt_single_counterexample :
    obsFind cmpBytes (adoptSingle cmpBytes
      { key := [98], value := [], level := 1, next := [none], prev := [none] })
      [] = some (some tailId) := by decide

/-- C10, amended.  Adopting a single-node chain (`first == last`) never
executes the adoption loop body: the adopted node is never linked under the
new sentinels, `current_level` stays 0, the level-0 walk is empty, and `Find`
returns null for every key other than the empty sentinel key (for the empty
key it returns the tail sentinel, exactly as a freshly constructed empty
skiplist does). -/
theorem C10_adopt_single_amended (n : Node) (k : Bytes) (hk : k ≠ []) :
    obsLevel (adoptSingle cmpBytes n) = some 0 ∧
    obsWalkIds (adoptSingle cmpBytes n) = some [] ∧
    obsFind cmpBytes (adoptSingle cmpBytes n) k = some none := by
  obtain ⟨c, cs, rfl⟩ : ∃ c cs, k = c :: cs := by
    cases k with
    | nil => exact absurd rfl hk
    | cons c cs => exact ⟨c, cs, rfl⟩
  have h1 : adoptSingle cmpBytes n
      = some { heap := fun j =>
                 if j = headId then some headNode
                 else if j = tailId then some tailNode
                 else if j = 2 then some n else none,
               nextId := 3, current_level := 0, current_size := 0 } :=
    adoptLoop_stop cmpBytes 2 n _ rfl (by simp [cmpBytes_self]) 130
  refine ⟨?_, ?_, ?_⟩
  · rw [h1]; rfl
  · rw [h1]; rfl
  · simp only [obsFind, h1, Option.bind_some]
    rfl

/-- C10, witness for the amended theorem: a level-1 node with key "b", looked
up with key "a". -/
theorem C10_adopt_single_amended_witness :
    obsLevel (adoptSingle cmpBytes
      { key := [98], value := [], level := 1, next := [none], prev := [none] })
      = some 0 ∧
    obsWalkIds (adoptSingle cmpBytes
      { key := [98], value := [], level := 1, next := [none], prev := [none] })
      = some [] ∧
    obsFind cmpBytes (adoptSingle cmpBytes
      { key := [98], value := [], level := 1, next := [none], prev := [none] })
      [97] = some none :=
  C10_adopt_single_amended _ [97] (by decide)

end SLMDB
